import Mathlib

/-!
Verification of the redaction engine in `examples/process_docx.py`.

Python strings are modelled as `List Char` (sequences of code points; all data
handled by this program is ASCII, for which Python's `str.upper`, `str.isupper`
agree with `Char.toUpper`, `Char.isUpper` pointwise).  Python's `sorted` is a
stable sort; any stable sort computes the same function, so it is modelled by
`List.insertionSort` with the reversed key comparison (`reverse=True` keeps
ties in input order, as insertion sort below does).  The Faker library is
modelled as unavailable (`fake is None`), so every generator in `PII_TO_FAKER`
returns its literal fallback constant.
-/

/-- A detected entity span, mirroring the dict entries consumed by
`replace_pii_in_text`: keys `label`, `text`, and optional `start`/`end`. -/
structure Entity where
  label : String
  text : List Char
  startIdx : Option Nat
  stopIdx : Option Nat
deriving DecidableEq

/-- `entity.get('start', 0)`, and the start offset when present. -/
def sa (e : Entity) : Nat := e.startIdx.getD 0

/-- The `end` offset when present (0 otherwise). -/
def sb (e : Entity) : Nat := e.stopIdx.getD 0

/-- `ALL_PII_TYPES` from the source, in source order. -/
def ALL_PII_TYPES : List String :=
  ["number", "location address street", "pin", "name medical professional", "accounts",
   "policy number", "marital status", "passport number", "ssn", "discharge date", "occupation",
   "date", "origin", "test result", "name", "location zip", "gender", "organization medical facility",
   "esidno", "zip", "date interval", "dob", "rate", "organization", "location state",
   "confirmation number", "name given", "time", "cvv", "month", "credit card", "planduration",
   "filename", "age", "numerical pii", "money", "physical attribute", "address",
   "credit card expiration", "account number", "location", "language",
   "location city", "duration", "password", "medical process", "county", "phone number",
   "condition", "email address", "location address", "name family", "location country"]

/-- `PII_GROUP` from the source. -/
def PII_GROUP : List String :=
  ["name", "name given", "name family", "phone number", "email address",
   "ssn", "dob", "age", "gender", "marital status", "origin",
   "location address", "location address street", "location city",
   "location state", "location country", "location zip", "location",
   "address", "zip", "county", "passport number", "occupation",
   "language", "physical attribute", "password", "filename",
   "date", "time", "duration", "date interval", "month", "number",
   "numerical pii", "esidno", "confirmation number"]

/-- `PHI_GROUP` from the source. -/
def PHI_GROUP : List String :=
  ["name", "name medical professional", "dob", "age", "gender",
   "phone number", "email address", "ssn", "location address",
   "organization medical facility", "condition", "medical process",
   "test result", "discharge date", "policy number", "account number",
   "location city", "location state", "location zip"]

/-- `PCI_GROUP` from the source. -/
def PCI_GROUP : List String :=
  ["credit card", "credit card expiration", "cvv", "account number",
   "accounts", "pin", "money", "rate", "planduration"]

/-- `PII_TO_FAKER` with `fake is None`: each lambda's `else` fallback constant,
keyed by category, in source order. -/
def PII_TO_FAKER : List (String × String) :=
  [("account number", "ACC1234567890"),
   ("accounts", "ACC1234567890"),
   ("address", "123 Main St, City, State 12345"),
   ("age", "35"),
   ("condition", "Medical Condition"),
   ("confirmation number", "CONF12345"),
   ("county", "Sample County"),
   ("credit card", "4111-1111-1111-1111"),
   ("credit card expiration", "12/25"),
   ("cvv", "123"),
   ("date", "2024-01-01"),
   ("date interval", "2024-01-01 to 2024-12-31"),
   ("discharge date", "2024-03-15"),
   ("dob", "01/01/1990"),
   ("duration", "30 days"),
   ("email address", "user@example.com"),
   ("esidno", "ESI123456789"),
   ("filename", "document.pdf"),
   ("gender", "Person"),
   ("language", "English"),
   ("location", "City Name"),
   ("location address", "123 Main St, City, State 12345"),
   ("location address street", "123 Main Street"),
   ("location city", "Anytown"),
   ("location country", "United States"),
   ("location state", "California"),
   ("location zip", "12345"),
   ("marital status", "Status"),
   ("medical process", "Medical Procedure"),
   ("money", "$50,000"),
   ("month", "January"),
   ("name", "John Doe"),
   ("name family", "Doe"),
   ("name given", "John"),
   ("name medical professional", "Dr. Smith"),
   ("number", "12345"),
   ("numerical pii", "NUM123456"),
   ("occupation", "Professional"),
   ("organization", "Example Corp"),
   ("organization medical facility", "General Hospital"),
   ("origin", "Country"),
   ("passport number", "P12345678"),
   ("password", "SecurePass123"),
   ("phone number", "(555) 123-4567"),
   ("physical attribute", "Description"),
   ("pin", "1234"),
   ("planduration", "12 months"),
   ("policy number", "POL-12345678"),
   ("rate", "5%"),
   ("ssn", "123-45-6789"),
   ("test result", "Result"),
   ("time", "12:00:00"),
   ("zip", "12345")]

/-- `f"[{pii_type.upper().replace(' ', '_')}]"`: upper-casing never produces a
space, so upper-then-replace is the single per-character map below. -/
def piiPlaceholder (c : String) : List Char :=
  '[' :: (c.data.map (fun ch => if ch = ' ' then '_' else ch.toUpper)) ++ [']']

/-- `get_replacement(pii_type, original_text)`.  `pii_type in PII_TO_FAKER` is
the key lookup; a hit calls the generator (its fallback constant here). -/
def get_replacement (pii_type : String) (original_text : List Char) : List Char :=
  match PII_TO_FAKER.find? (fun p => p.1 == pii_type) with
  | some p => p.2.data
  | none => piiPlaceholder pii_type

/-- Python `str.isupper`: some cased character, and no cased character is
lower-case (ASCII: cased = alphabetic). -/
def pyIsUpper (s : List Char) : Bool :=
  s.any (fun c => c.isAlpha) && s.all (fun c => !c.isAlpha || c.isUpper)

/-- `entity['text'] and entity['text'][0].isupper()`. -/
def pyFirstUpper (s : List Char) : Bool :=
  match s with
  | [] => false
  | c :: _ => c.isUpper

/-- Lines 185-189 of the source: the capitalization-preserving adjustment of a
replacement against the matched substring. -/
def applyCase (matched repl : List Char) : List Char :=
  if pyIsUpper matched then repl.map Char.toUpper
  else if pyFirstUpper matched then
    if repl.length > 1 then
      match repl with
      | [] => []
      | r :: rs => Char.toUpper r :: rs
    else repl.map Char.toUpper
  else repl

/-- Is `pat` an initial segment of the second list. -/
def leadsWith : List Char → List Char → Bool
  | [], _ => true
  | _ :: _, [] => false
  | p :: ps, c :: cs => p == c && leadsWith ps cs

/-- Python `s.replace(pat, repl, 1)`: substitute the first (leftmost)
occurrence of `pat`; an empty `pat` inserts `repl` at the front. -/
def replaceFirst (pat repl : List Char) : List Char → List Char
  | [] => if leadsWith pat [] then repl else []
  | c :: rest =>
    if leadsWith pat (c :: rest) then repl ++ (c :: rest).drop pat.length
    else c :: replaceFirst pat repl rest

/-- The body of the per-entity loop in `replace_pii_in_text`. -/
def processEntity (m : List Char) (e : Entity) : List Char :=
  let repl := applyCase e.text (get_replacement e.label e.text)
  match e.startIdx, e.stopIdx with
  | some a, some b => m.take a ++ repl ++ m.drop b
  | _, _ => replaceFirst e.text repl m

/-- The comparison underlying `sorted(entities, key=lambda x: x.get('start', 0),
reverse=True)`: `x` may precede `y` iff `key x >= key y`. -/
def entLE (x y : Entity) : Prop := sa y ≤ sa x

instance : DecidableRel entLE := fun x y => inferInstanceAs (Decidable (sa y ≤ sa x))

instance : IsTotal Entity entLE := ⟨fun a b => Nat.le_total (sa b) (sa a)⟩

instance : IsTrans Entity entLE := ⟨fun _ _ _ h1 h2 => Nat.le_trans h2 h1⟩

/-- `replace_pii_in_text(text, entities)` from the source. -/
def replace_pii_in_text (text : List Char) (entities : List Entity) : List Char :=
  if entities.isEmpty then text
  else (List.insertionSort entLE entities).foldl processEntity text

/-- `applyCase` with Python's one latent exception site made explicit:
`replacement[0]` inside the `len(replacement) > 1` branch would raise
`IndexError` on an empty string (`none`). -/
def applyCaseE (matched repl : List Char) : Option (List Char) :=
  if pyIsUpper matched then some (repl.map Char.toUpper)
  else if pyFirstUpper matched then
    if repl.length > 1 then
      match repl with
      | [] => none
      | r :: rs => some (Char.toUpper r :: rs)
    else some (repl.map Char.toUpper)
  else some repl

/-- Exception-aware per-entity step. -/
def processEntityE (m : List Char) (e : Entity) : Option (List Char) :=
  match applyCaseE e.text (get_replacement e.label e.text) with
  | none => none
  | some repl =>
    match e.startIdx, e.stopIdx with
    | some a, some b => some (m.take a ++ repl ++ m.drop b)
    | _, _ => some (replaceFirst e.text repl m)

/-- Exception-aware loop over the sorted spans. -/
def runSpansE : List Char → List Entity → Option (List Char)
  | m, [] => some m
  | m, e :: rest =>
    match processEntityE m e with
    | none => none
    | some m2 => runSpansE m2 rest

/-- `replace_pii_in_text` with exceptions modelled as `none`. -/
def replace_pii_in_textE (text : List Char) (entities : List Entity) : Option (List Char) :=
  if entities.isEmpty then some text
  else runSpansE text (List.insertionSort entLE entities)

/-- `normalize_pii_types`: underscore to space, per character. -/
def normalize_pii_types (l : List String) : List String :=
  l.map (fun s => String.mk (s.data.map (fun c => if c = '_' then ' ' else c)))

/-- The argparse fields `get_pii_types` consults; an absent or empty
`--pii-types` is the empty list (both are falsy in Python). -/
structure Args where
  pii_types : List String
  pii : Bool
  phi : Bool
  pci : Bool
deriving DecidableEq

/-- `get_pii_types(args)` from the source. -/
def get_pii_types (a : Args) : List String :=
  if !a.pii_types.isEmpty then normalize_pii_types a.pii_types
  else if a.pii then PII_GROUP
  else if a.phi then PHI_GROUP
  else if a.pci then PCI_GROUP
  else ALL_PII_TYPES

/-- Does span `e` cover text index `j` (half-open `[start, end)`). -/
def hitB (e : Entity) (j : Nat) : Bool := decide (sa e ≤ j) && decide (j < sb e)

/-- Index `j` is covered by none of the spans. -/
def notHit (spans : List Entity) (j : Nat) : Bool :=
  !(spans.any (fun e => hitB e j))

/-- The indices below `n` lying outside every span's `[start, end)` range. -/
def outIdx (spans : List Entity) (n : Nat) : List Nat :=
  (List.range n).filter (notHit spans)

/-- Boolean `j ≤ i`, used to restrict index lists. -/
def atLeast (j i : Nat) : Bool := decide (j ≤ i)

/-- The characters of `t` at a list of indices. -/
def idxChars (t : List Char) (S : List Nat) : List Char :=
  S.map (fun j => t.getD j ' ')

/-- Two `[start, end)` ranges do not overlap: one ends before the other
starts, or one of them is empty. -/
def rangesDisjoint (e f : Entity) : Prop :=
  sb e ≤ sa f ∨ sb f ≤ sa e ∨ sb e ≤ sa e ∨ sb f ≤ sa f

instance : DecidableRel rangesDisjoint := fun e f =>
  inferInstanceAs (Decidable (sb e ≤ sa f ∨ sb f ≤ sa e ∨ sb e ≤ sa e ∨ sb f ≤ sa f))

/-- C7: applying `replace_pii_in_text` to the empty span list returns the
text unchanged, for every text. -/
theorem claim_C7 (t : List Char) : replace_pii_in_text t [] = t := rfl

/-- C10: with Faker unavailable, `get_replacement` is a function of the
category alone — the `original_text` argument never influences the result —
and registered categories map to their fixed fallback constants while
unregistered ones get the fixed placeholder. -/
theorem claim_C10 :
    (∀ (category : String) (t1 t2 : List Char),
        get_replacement category t1 = get_replacement category t2) ∧
    (∀ t : List Char, get_replacement "ssn" t = "123-45-6789".data) ∧
    (∀ t : List Char, get_replacement "name" t = "John Doe".data) ∧
    (∀ t : List Char, get_replacement "mystery kind" t = "[MYSTERY_KIND]".data) := by
  exact ⟨fun _ _ _ => rfl, fun _ => rfl, fun _ => rfl, fun _ => rfl⟩

/-- C9: every category of the three predefined groups is a member of the
master registry `ALL_PII_TYPES`. -/
theorem claim_C9 :
    (∀ c ∈ PII_GROUP, c ∈ ALL_PII_TYPES) ∧
    (∀ c ∈ PHI_GROUP, c ∈ ALL_PII_TYPES) ∧
    (∀ c ∈ PCI_GROUP, c ∈ ALL_PII_TYPES) := by
  decide

/-- Witness for C9 at the concrete category "ssn". -/
theorem claim_C9_witness : "ssn" ∈ PII_GROUP ∧ "ssn" ∈ ALL_PII_TYPES :=
  ⟨by decide, claim_C9.1 "ssn" (by decide)⟩

/-- C6: for a category with no registered generator, `get_replacement` returns
the non-empty bracketed upper-snake-case placeholder; in particular the
category "unregistered category xyz" yields "[UNREGISTERED_CATEGORY_XYZ]". -/
theorem claim_C6 :
    (∀ (c : String) (t : List Char),
        PII_TO_FAKER.find? (fun p => p.1 == c) = none →
        get_replacement c t = piiPlaceholder c ∧ get_replacement c t ≠ []) ∧
    get_replacement "unregistered category xyz" [] = "[UNREGISTERED_CATEGORY_XYZ]".data := by
  constructor
  · intro c t h
    constructor
    · simp [get_replacement, h]
    · simp [get_replacement, h, piiPlaceholder]
  · decide

/-- Witness for C6 at the concrete category "unregistered category xyz". -/
theorem claim_C6_witness :
    PII_TO_FAKER.find? (fun p => p.1 == "unregistered category xyz") = none ∧
    (get_replacement "unregistered category xyz" [] =
        piiPlaceholder "unregistered category xyz" ∧
      get_replacement "unregistered category xyz" [] ≠ []) :=
  ⟨by decide, claim_C6.1 "unregistered category xyz" [] (by decide)⟩

/-- C2: the case-shape adjustment applied to each replacement: all-upper
matched text upper-cases the whole replacement; otherwise an upper-case first
character upper-cases only the replacement's first character, except that a
replacement of length at most 1 is fully upper-cased; otherwise the
replacement is untouched; an empty matched substring skips adjustment. -/
theorem claim_C2 (matched repl : List Char) :
    (pyIsUpper matched = true → applyCase matched repl = repl.map Char.toUpper) ∧
    (pyIsUpper matched = false → pyFirstUpper matched = true →
      (repl.length ≤ 1 → applyCase matched repl = repl.map Char.toUpper) ∧
      (∀ r r2 rs, repl = r :: r2 :: rs →
          applyCase matched repl = Char.toUpper r :: r2 :: rs)) ∧
    (pyIsUpper matched = false → pyFirstUpper matched = false →
      applyCase matched repl = repl) ∧
    (matched = [] → applyCase matched repl = repl) := by
  refine ⟨?_, ?_, ?_, ?_⟩
  · intro h; simp [applyCase, h]
  · intro h1 h2
    constructor
    · intro hlen
      have hgt : ¬ repl.length > 1 := by omega
      simp [applyCase, h1, h2, hgt]
    · rintro r r2 rs rfl
      have hgt : (r :: r2 :: rs).length > 1 := by simp
      simp [applyCase, h1, h2, hgt]
  · intro h1 h2; simp [applyCase, h1, h2]
  · rintro rfl
    simp [applyCase, pyIsUpper, pyFirstUpper]

/-- Witness for C2: "JOHN" is all upper-case, so the replacement is fully
upper-cased; "John" upper-cases only the first character. -/
theorem claim_C2_witness :
    (pyIsUpper "JOHN".data = true ∧
      applyCase "JOHN".data "john doe".data = ("john doe".data).map Char.toUpper) ∧
    (pyIsUpper "John".data = false ∧ pyFirstUpper "John".data = true ∧
      applyCase "John".data "jane roe".data = 'J' :: "ane roe".data) :=
  ⟨⟨by decide, (claim_C2 "JOHN".data "john doe".data).1 (by decide)⟩,
   ⟨by decide, by decide,
     (claim_C2 "John".data "jane roe".data).2.1 (by decide) (by decide) |>.2
       'j' 'a' "ne roe".data rfl⟩⟩

/-- C4: a span carrying both offsets is spliced as
`text[:start] ++ replacement ++ text[end:]`; a span missing an offset falls
back to substituting the first literal occurrence of its matched text. -/
theorem claim_C4 (t : List Char) (e : Entity) :
    (∀ a b, e.startIdx = some a → e.stopIdx = some b →
        replace_pii_in_text t [e] =
          t.take a ++ applyCase e.text (get_replacement e.label e.text) ++ t.drop b) ∧
    ((e.startIdx = none ∨ e.stopIdx = none) →
        replace_pii_in_text t [e] =
          replaceFirst e.text (applyCase e.text (get_replacement e.label e.text)) t) := by
  have hsort : List.insertionSort entLE [e] = [e] := rfl
  constructor
  · intro a b ha hb
    simp [replace_pii_in_text, hsort, processEntity, ha, hb]
  · intro h
    rcases h with h | h
    · cases ht : e.stopIdx <;>
        simp [replace_pii_in_text, hsort, processEntity, h, ht]
    · cases hs : e.startIdx <;>
        simp [replace_pii_in_text, hsort, processEntity, hs, h]

/-- A sample span with offsets, for witnesses. -/
def entOff : Entity :=
  { label := "age", text := "45".data, startIdx := some 3, stopIdx := some 5 }

/-- A sample span without offsets, for witnesses. -/
def entNoOff : Entity :=
  { label := "age", text := "45".data, startIdx := none, stopIdx := none }

/-- Witness for C4 on both branches: with offsets and without. -/
theorem claim_C4_witness :
    (entOff.startIdx = some 3 ∧ entOff.stopIdx = some 5 ∧
      replace_pii_in_text "ab 45 cd".data [entOff] =
        ("ab 45 cd".data).take 3 ++
          applyCase entOff.text (get_replacement entOff.label entOff.text) ++
          ("ab 45 cd".data).drop 5) ∧
    ((entNoOff.startIdx = none ∨ entNoOff.stopIdx = none) ∧
      replace_pii_in_text "ab 45 cd".data [entNoOff] =
        replaceFirst entNoOff.text
          (applyCase entNoOff.text (get_replacement entNoOff.label entNoOff.text))
          "ab 45 cd".data) :=
  ⟨⟨rfl, rfl, (claim_C4 "ab 45 cd".data entOff).1 3 5 rfl rfl⟩,
   ⟨Or.inl rfl, (claim_C4 "ab 45 cd".data entNoOff).2 (Or.inl rfl)⟩⟩

/-- Arguments carrying an explicit list with a token absent from the
taxonomy (after underscore normalization). -/
def argsUnknown : Args :=
  { pii_types := ["not_a_real_category"], pii := false, phi := false, pci := false }

/-- Counterexample to C5: on an explicit list holding an unknown token,
`get_pii_types` does not fail; it returns the normalized token even though it
is not in the taxonomy — the unknown token passes through silently. -/
theorem claim_C5_cex :
    get_pii_types argsUnknown = ["not a real category"] ∧
    "not a real category" ∉ ALL_PII_TYPES :=
  ⟨rfl, by decide⟩

/-- C5 (amended): with a non-empty explicit list, `get_pii_types` returns the
underscore-normalized tokens without validating them against the taxonomy;
unknown tokens are passed through silently rather than raising an error. -/
theorem claim_C5 (a : Args) (h : a.pii_types ≠ []) :
    get_pii_types a = normalize_pii_types a.pii_types := by
  have hemp : a.pii_types.isEmpty = false := by
    cases hx : a.pii_types with
    | nil => exact absurd hx h
    | cons x xs => rfl
  simp [get_pii_types, hemp]

/-- Witness for C5 at the concrete unknown-token argument list. -/
theorem claim_C5_witness :
    argsUnknown.pii_types ≠ [] ∧
    get_pii_types argsUnknown = normalize_pii_types argsUnknown.pii_types :=
  ⟨by decide, claim_C5 argsUnknown (by decide)⟩

/-- `applyCaseE` never actually raises: the guarded index is unreachable. -/
theorem applyCaseE_eq (matched repl : List Char) :
    applyCaseE matched repl = some (applyCase matched repl) := by
  unfold applyCaseE applyCase
  split_ifs with h1 h2 h3
  · rfl
  · rcases repl with _ | ⟨r, rs⟩
    · simp at h3
    · rfl
  · rfl
  · rfl

/-- The exception-aware step agrees with the total step. -/
theorem processEntityE_eq (m : List Char) (e : Entity) :
    processEntityE m e = some (processEntity m e) := by
  unfold processEntityE processEntity
  rw [applyCaseE_eq]
  cases hs : e.startIdx <;> cases ht : e.stopIdx <;> simp

/-- The exception-aware loop agrees with the total fold. -/
theorem runSpansE_eq (L : List Entity) :
    ∀ m, runSpansE m L = some (List.foldl processEntity m L) := by
  induction L with
  | nil => intro m; rfl
  | cons e rest ih =>
    intro m
    simp [runSpansE, processEntityE_eq, List.foldl, ih]

/-- C8: on well-formed spans (present offsets in bounds and matching their
substring), `replace_pii_in_text` completes normally: the exception-aware
model returns `some` of the total function's result — no exception escapes,
including for empty matched substrings and short replacements. -/
theorem claim_C8 (t : List Char) (es : List Entity)
    (hwf : ∀ e ∈ es, e.startIdx.isSome → e.stopIdx.isSome →
        sa e ≤ sb e ∧ sb e ≤ t.length ∧ (t.drop (sa e)).take (sb e - sa e) = e.text) :
    replace_pii_in_textE t es = some (replace_pii_in_text t es) := by
  unfold replace_pii_in_textE replace_pii_in_text
  split
  · rfl
  · exact runSpansE_eq _ _

/-- Witness for C8 at a concrete well-formed span list. -/
theorem claim_C8_witness :
    (∀ e ∈ [entOff], e.startIdx.isSome → e.stopIdx.isSome →
        sa e ≤ sb e ∧ sb e ≤ ("ab 45 cd".data).length ∧
          (("ab 45 cd".data).drop (sa e)).take (sb e - sa e) = e.text) ∧
    replace_pii_in_textE "ab 45 cd".data [entOff] =
      some (replace_pii_in_text "ab 45 cd".data [entOff]) :=
  ⟨by decide, claim_C8 "ab 45 cd".data [entOff] (by decide)⟩

/-- Two permutations of the same elements that are both strictly sorted by a
numeric key are identical. -/
theorem strict_sorted_perm_eq {α : Type} (key : α → Nat) :
    ∀ (l1 l2 : List α), l1.Perm l2 →
      l1.Pairwise (fun x y => key y < key x) →
      l2.Pairwise (fun x y => key y < key x) → l1 = l2 := by
  intro l1
  induction l1 with
  | nil =>
    intro l2 hp _ _
    exact (hp.symm.eq_nil).symm
  | cons x xs ih =>
    intro l2 hp h1 h2
    cases l2 with
    | nil => exact absurd hp.eq_nil (by simp)
    | cons y ys =>
      have hxy : x = y := by
        have hx2 : x ∈ y :: ys := hp.mem_iff.mp (List.mem_cons_self x xs)
        rcases List.mem_cons.mp hx2 with h | h
        · exact h
        · have hky : key x < key y := (List.pairwise_cons.mp h2).1 x h
          have hy1 : y ∈ x :: xs := hp.symm.mem_iff.mp (List.mem_cons_self y ys)
          rcases List.mem_cons.mp hy1 with h' | h'
          · exact h'.symm
          · have : key y < key x := (List.pairwise_cons.mp h1).1 y h'
            omega
      subst hxy
      have htl := ih ys hp.cons_inv (List.pairwise_cons.mp h1).2
        (List.pairwise_cons.mp h2).2
      rw [htl]

/-- Non-overlap of ranges is symmetric. -/
theorem rangesDisjoint_symm {e f : Entity} (h : rangesDisjoint e f) :
    rangesDisjoint f e := by
  unfold rangesDisjoint at *
  tauto

/-- Sorting pairwise-disjoint, non-empty spans by descending start yields a
strictly descending start sequence. -/
theorem sorted_strict (l : List Entity)
    (hne : ∀ e ∈ l, sa e < sb e) (hdisj : l.Pairwise rangesDisjoint) :
    (List.insertionSort entLE l).Pairwise (fun x y => sa y < sa x) := by
  have hs : (List.insertionSort entLE l).Pairwise entLE :=
    List.sorted_insertionSort entLE l
  have hperm : (List.insertionSort entLE l).Perm l := List.perm_insertionSort entLE l
  have hd2 : (List.insertionSort entLE l).Pairwise rangesDisjoint :=
    (hperm.pairwise_iff (fun h => rangesDisjoint_symm h)).mpr hdisj
  have hne2 : ∀ e ∈ List.insertionSort entLE l, sa e < sb e :=
    fun e he => hne e (hperm.mem_iff.mp he)
  refine (hs.and hd2).imp_of_mem ?_
  intro a b ha hb hab
  obtain ⟨hle, hdi⟩ := hab
  have hle' : sa b ≤ sa a := hle
  have hna := hne2 a ha
  have hnb := hne2 b hb
  rcases hdi with h | h | h | h <;> omega

/-- C3 (amended): for spans with valid offsets whose ranges are pairwise
non-overlapping and non-empty (`start < end`), the internal descending sort
makes the output identical for every permutation of the input span list.  The
non-emptiness condition is forced by the counterexample below. -/
theorem claim_C3 (t : List Char) (l1 l2 : List Entity)
    (hperm : l1.Perm l2)
    (hoff : ∀ e ∈ l1, e.startIdx.isSome ∧ e.stopIdx.isSome)
    (hvalid : ∀ e ∈ l1, sa e ≤ sb e ∧ sb e ≤ t.length)
    (hne : ∀ e ∈ l1, sa e < sb e)
    (hdisj : l1.Pairwise rangesDisjoint) :
    replace_pii_in_text t l1 = replace_pii_in_text t l2 := by
  have hsorteq : List.insertionSort entLE l1 = List.insertionSort entLE l2 := by
    apply strict_sorted_perm_eq sa
    · exact (List.perm_insertionSort entLE l1).trans
        (hperm.trans (List.perm_insertionSort entLE l2).symm)
    · exact sorted_strict l1 hne hdisj
    · apply sorted_strict l2
      · intro e he
        exact hne e (hperm.mem_iff.mpr he)
      · exact (hperm.pairwise_iff (fun h => rangesDisjoint_symm h)).mp hdisj
  have hemp : l1.isEmpty = l2.isEmpty := by
    have hlen := hperm.length_eq
    cases l1 <;> cases l2 <;> simp_all
  unfold replace_pii_in_text
  rw [hsorteq, hemp]

/-- An empty span starting where a non-empty span starts, for the C3
counterexample. -/
def entEmpty : Entity :=
  { label := "pin", text := [], startIdx := some 5, stopIdx := some 5 }

/-- The non-empty span sharing its start with `entEmpty`. -/
def entAtFive : Entity :=
  { label := "age", text := "fgh".data, startIdx := some 5, stopIdx := some 8 }

/-- Counterexample to C3 as stated: both spans carry valid offsets and
pairwise non-overlapping ranges (one is empty), yet the two orders of the
input list produce different outputs. -/
theorem claim_C3_cex :
    [entEmpty, entAtFive].Perm [entAtFive, entEmpty] ∧
    (∀ e ∈ [entEmpty, entAtFive],
        (e.startIdx.isSome ∧ e.stopIdx.isSome) ∧
          sa e ≤ sb e ∧ sb e ≤ ("abcdefgh".data).length) ∧
    [entEmpty, entAtFive].Pairwise rangesDisjoint ∧
    replace_pii_in_text "abcdefgh".data [entEmpty, entAtFive] ≠
      replace_pii_in_text "abcdefgh".data [entAtFive, entEmpty] := by
  refine ⟨by decide, by decide, by decide, by decide⟩

/-- Witness for C3 (amended) on two non-empty disjoint spans fed in both
orders. -/
theorem claim_C3_witness :
    [entAtFive, entOff].Perm [entOff, entAtFive] ∧
    replace_pii_in_text "abcdefgh".data [entAtFive, entOff] =
      replace_pii_in_text "abcdefgh".data [entOff, entAtFive] :=
  ⟨by decide,
   claim_C3 "abcdefgh".data [entAtFive, entOff] [entOff, entAtFive]
     (by decide) (by decide) (by decide) (by decide) (by decide)⟩

/-- Characters at an appended index list. -/
theorem idxChars_append (t : List Char) (S1 S2 : List Nat) :
    idxChars t (S1 ++ S2) = idxChars t S1 ++ idxChars t S2 :=
  List.map_append _ _ _

/-- `idxChars` is monotone with respect to sublists of indices. -/
theorem idxChars_sublist (t : List Char) {S1 S2 : List Nat} (h : S1.Sublist S2) :
    (idxChars t S1).Sublist (idxChars t S2) :=
  h.map _

/-- The characters at a contiguous in-bounds index range are a slice. -/
theorem idxChars_range' (t : List Char) :
    ∀ (n a : Nat), a + n ≤ t.length →
      idxChars t (List.range' a n) = (t.drop a).take n := by
  intro n
  induction n with
  | zero => intro a h; simp [idxChars]
  | succ n ihn =>
    intro a h
    have ha : a < t.length := by omega
    have h2 : (a + 1) + n ≤ t.length := by omega
    rw [List.range'_succ]
    simp only [idxChars, List.map_cons]
    rw [show (List.range' (a + 1) n).map (fun j => t.getD j ' ') =
        idxChars t (List.range' (a + 1) n) from rfl]
    rw [ihn (a + 1) h2, List.getD_eq_getElem t ' ' ha,
      List.drop_eq_getElem_cons ha, List.take_succ_cons]

/-- Dropping more gives a sublist of dropping less. -/
theorem drop_le_sublist (l : List Char) {m n : Nat} (h : n ≤ m) :
    (l.drop m).Sublist (l.drop n) := by
  have heq : l.drop m = (l.drop n).drop (m - n) := by
    rw [List.drop_drop]
    congr 1
    omega
  rw [heq]
  exact List.drop_sublist _ _

/-- A suffix of the right summand survives dropping at most the left summand's
length more. -/
theorem drop_append_sublist (Y X : List Char) (m n : Nat) (h : m ≤ Y.length + n) :
    (X.drop n).Sublist ((Y ++ X).drop m) := by
  have h1 : (Y ++ X).drop (Y.length + n) = X.drop n := by
    rw [List.drop_append_eq_append_drop, List.drop_eq_nil_of_le (by omega)]
    simp
  rw [← h1]
  exact drop_le_sublist _ h

/-- Restricting a contiguous range to indices at least `j` truncates it. -/
theorem range'_filter_ge :
    ∀ (n a j : Nat), a ≤ j → j ≤ a + n →
      (List.range' a n).filter (atLeast j) = List.range' j (a + n - j) := by
  intro n
  induction n with
  | zero =>
    intro a j h1 h2
    have hj : j = a := by omega
    subst hj
    simp
  | succ n ihn =>
    intro a j h1 h2
    rw [List.range'_succ]
    by_cases hja : j ≤ a
    · have hj : j = a := by omega
      subst hj
      rw [List.filter_cons_of_pos (by simp [atLeast])]
      have hall : (List.range' (j + 1) n).filter (atLeast j) = List.range' (j + 1) n := by
        apply List.filter_eq_self.mpr
        intro x hx
        have hx1 := (List.mem_range'_1.mp hx).1
        simp only [atLeast, decide_eq_true_eq]
        omega
      rw [hall, show j + (n + 1) - j = n + 1 from by omega, List.range'_succ]
    · rw [List.filter_cons_of_neg (by simp [atLeast]; omega)]
      rw [ihn (a + 1) j (by omega) (by omega)]
      congr 1
      omega

/-- Splitting a contiguous range at an interior point. -/
theorem range'_split (a b k : Nat) (hab : a ≤ b) (hbk : b ≤ k) :
    List.range' a (k - a) = List.range' a (b - a) ++ List.range' b (k - b) := by
  have h := List.range'_append a (b - a) (k - b) 1
  rw [show a + 1 * (b - a) = b from by omega] at h
  rw [show k - b + (b - a) = k - a from by omega] at h
  exact h.symm

/-- Unfolding of `notHit` to range membership. -/
theorem notHit_iff (spans : List Entity) (j : Nat) :
    notHit spans j = true ↔ ∀ f ∈ spans, ¬(sa f ≤ j ∧ j < sb f) := by
  simp [notHit, hitB, List.any_eq_false]

/-- Core invariant of the descending-offset splice loop: over the state
`t.take k ++ X`, processing spans whose starts descend and stay at most `k`,
with pairwise non-overlapping valid ranges, keeps the characters of `t` at
the outside indices as an ordered sublist.  `S` lists the alive outside
indices at or beyond `k`; the family hypothesis records how deep in `X` the
characters at indices at least `j` sit, for each cut `j` between `k` and `c`;
`c` bounds the `end` of any remaining span whose range crosses `k`. -/
theorem redact_keeps_outside (t : List Char) :
    ∀ (L : List Entity) (X : List Char) (S : List Nat) (k c : Nat),
      k ≤ c → c ≤ t.length →
      (∀ e ∈ L, e.startIdx.isSome ∧ e.stopIdx.isSome) →
      (∀ e ∈ L, sa e ≤ sb e ∧ sb e ≤ t.length) →
      (∀ e ∈ L, sa e ≤ k) →
      L.Pairwise (fun x y => sa y ≤ sa x) →
      L.Pairwise rangesDisjoint →
      (∀ e ∈ L, k < sb e → sb e ≤ c) →
      (∀ j ∈ S, k ≤ j ∧ j < t.length) →
      (∀ j ∈ S, ∀ e ∈ L, ¬(sa e ≤ j ∧ j < sb e)) →
      (∀ j, k ≤ j → j ≤ c →
        (idxChars t (S.filter (atLeast j))).Sublist (X.drop (j - k))) →
      (idxChars t (outIdx L k ++ S)).Sublist
        (List.foldl processEntity (t.take k ++ X) L) := by
  intro L
  induction L with
  | nil =>
    intro X S k c hkc hclen _ _ _ _ _ _ hSlo _ hfam
    rw [idxChars_append, List.foldl_nil]
    have h1 : outIdx [] k = List.range k := by simp [outIdx, notHit]
    have h2 : idxChars t (List.range k) = t.take k := by
      rw [List.range_eq_range', idxChars_range' t k 0 (by omega)]
      simp
    rw [h1, h2]
    have h3 : S.filter (atLeast k) = S := by
      apply List.filter_eq_self.mpr
      intro j hj
      simp only [atLeast, decide_eq_true_eq]
      exact (hSlo j hj).1
    have h4 := hfam k (Nat.le_refl k) hkc
    rw [h3, Nat.sub_self, List.drop_zero] at h4
    exact List.Sublist.append (List.Sublist.refl _) h4
  | cons e tail ih =>
    intro X S k c hkc hclen hoff hvalid hstart hsort hdisj hH3 hSlo hSdisj hfam
    obtain ⟨hofs, hoft⟩ := hoff e (List.mem_cons_self e tail)
    obtain ⟨a, ha⟩ := Option.isSome_iff_exists.mp hofs
    obtain ⟨b, hb⟩ := Option.isSome_iff_exists.mp hoft
    have hsa : sa e = a := by simp [sa, ha]
    have hsb : sb e = b := by simp [sb, hb]
    have hk : k ≤ t.length := Nat.le_trans hkc hclen
    have hak : a ≤ k := by rw [← hsa]; exact hstart e (List.mem_cons_self e tail)
    have hab : a ≤ b := by
      rw [← hsa, ← hsb]; exact (hvalid e (List.mem_cons_self e tail)).1
    have hblen : b ≤ t.length := by
      rw [← hsb]; exact (hvalid e (List.mem_cons_self e tail)).2
    have htailstart : ∀ f ∈ tail, sa f ≤ a := by
      intro f hf
      rw [← hsa]
      exact (List.pairwise_cons.mp hsort).1 f hf
    have htaildisj : ∀ f ∈ tail, rangesDisjoint e f := (List.pairwise_cons.mp hdisj).1
    have hlen_take : (List.take k t).length = k := by rw [List.length_take]; omega
    have htake : (t.take k ++ X).take a = t.take a := by
      rw [List.take_append_of_le_length (by omega), List.take_take]
      congr 1
      exact Nat.min_eq_left hak
    have hfamk : (idxChars t S).Sublist X := by
      have h3 : S.filter (atLeast k) = S := by
        apply List.filter_eq_self.mpr
        intro j hj
        simp only [atLeast, decide_eq_true_eq]
        exact (hSlo j hj).1
      have h4 := hfam k (Nat.le_refl k) hkc
      rw [h3, Nat.sub_self, List.drop_zero] at h4
      exact h4
    -- shared facts about the still-free indices of S
    have hSgeb : ∀ j ∈ S, b ≤ j ∨ j < a := by
      intro j hj
      have hnd := hSdisj j hj e (List.mem_cons_self e tail)
      rw [hsa, hsb] at hnd
      omega
    -- composition of the outside-index lists
    have hcomp : outIdx (e :: tail) k ++ S =
        outIdx tail a ++
          ((List.range' a (k - a)).filter (notHit (e :: tail)) ++ S) := by
      have hsplit : List.range' 0 k =
          List.range' 0 a ++ List.range' a (k - a) := by
        have := range'_split 0 a k (Nat.zero_le a) hak
        simpa using this
      rw [outIdx, List.range_eq_range', hsplit, List.filter_append]
      have hlow : (List.range' 0 a).filter (notHit (e :: tail)) =
          (List.range' 0 a).filter (notHit tail) := by
        apply List.filter_congr
        intro j hj
        have hja : j < a := by
          have := List.mem_range'_1.mp hj
          omega
        have hhit : hitB e j = false := by
          simp only [hitB, hsa, Bool.and_eq_false_iff, decide_eq_false_iff_not]
          left
          omega
        simp [notHit, List.any_cons, hhit]
      rw [hlow, outIdx, List.range_eq_range', List.append_assoc]
    rw [List.foldl_cons, hcomp]
    have hstep : processEntity (t.take k ++ X) e =
        t.take a ++ (applyCase e.text (get_replacement e.label e.text) ++
          (t.take k ++ X).drop b) := by
      simp only [processEntity, ha, hb]
      rw [htake, List.append_assoc]
    rw [hstep]
    by_cases hbk : b ≤ k
    · -- the span ends at or before k: the state exposes the slice t[b:k]
      have hdropA : (t.take k ++ X).drop b = (t.drop b).take (k - b) ++ X := by
        rw [List.drop_append_of_le_length (by omega), List.drop_take]
      rw [hdropA]
      by_cases hanb : a < b
      · -- non-empty span: recurse with c' = a
        apply ih _ _ a a (Nat.le_refl a) (by omega)
        · intro f hf; exact hoff f (List.mem_cons_of_mem e hf)
        · intro f hf; exact hvalid f (List.mem_cons_of_mem e hf)
        · exact htailstart
        · exact (List.pairwise_cons.mp hsort).2
        · exact (List.pairwise_cons.mp hdisj).2
        · intro f hf hlt
          have hfs := htailstart f hf
          have hd := htaildisj f hf
          unfold rangesDisjoint at hd
          rw [hsa, hsb] at hd
          omega
        · intro j hj
          rcases List.mem_append.mp hj with hj | hj
          · have hm := (List.mem_filter.mp hj).1
            have := List.mem_range'_1.mp hm
            omega
          · have := hSlo j hj
            omega
        · intro j hj f hf
          rcases List.mem_append.mp hj with hj | hj
          · have hP := (List.mem_filter.mp hj).2
            exact (notHit_iff _ _).mp hP f (List.mem_cons_of_mem e hf)
          · exact hSdisj j hj f (List.mem_cons_of_mem e hf)
        · intro j hj1 hj2
          have hja : j = a := Nat.le_antisymm hj2 hj1
          rw [hja, Nat.sub_self, List.drop_zero, List.filter_append]
          have hS1 : S.filter (atLeast a) = S := by
            apply List.filter_eq_self.mpr
            intro i hi
            simp only [atLeast, decide_eq_true_eq]
            have := hSlo i hi
            omega
          have hS2 : ((List.range' a (k - a)).filter (notHit (e :: tail))).filter
              (atLeast a) = (List.range' a (k - a)).filter (notHit (e :: tail)) := by
            apply List.filter_eq_self.mpr
            intro i hi
            have hm := (List.mem_filter.mp hi).1
            have := List.mem_range'_1.mp hm
            simp only [atLeast, decide_eq_true_eq]
            omega
          rw [hS1, hS2, idxChars_append]
          have hsegsub : ((List.range' a (k - a)).filter (notHit (e :: tail))).Sublist
              (List.range' b (k - b)) := by
            rw [range'_split a b k hab hbk, List.filter_append]
            have hleft : (List.range' a (b - a)).filter (notHit (e :: tail)) = [] := by
              apply List.filter_eq_nil_iff.mpr
              intro x hx
              have hm := List.mem_range'_1.mp hx
              intro hcon
              exact (notHit_iff _ _).mp hcon e (List.mem_cons_self e tail)
                ⟨by rw [hsa]; omega, by rw [hsb]; omega⟩
            rw [hleft, List.nil_append]
            exact List.filter_sublist _
          have hseg : (idxChars t ((List.range' a (k - a)).filter
              (notHit (e :: tail)))).Sublist ((t.drop b).take (k - b)) := by
            have := idxChars_sublist t hsegsub
            rwa [idxChars_range' t (k - b) b (by omega)] at this
          refine (List.Sublist.append hseg hfamk).trans ?_
          exact List.sublist_append_right _ _
      · -- empty span (a = b): recurse keeping c
        have haeb : a = b := by omega
        apply ih _ _ a c (by omega) hclen
        · intro f hf; exact hoff f (List.mem_cons_of_mem e hf)
        · intro f hf; exact hvalid f (List.mem_cons_of_mem e hf)
        · exact htailstart
        · exact (List.pairwise_cons.mp hsort).2
        · exact (List.pairwise_cons.mp hdisj).2
        · intro f hf hlt
          by_cases hkf : k < sb f
          · exact hH3 f (List.mem_cons_of_mem e hf) hkf
          · omega
        · intro j hj
          rcases List.mem_append.mp hj with hj | hj
          · have hm := (List.mem_filter.mp hj).1
            have := List.mem_range'_1.mp hm
            omega
          · have := hSlo j hj
            omega
        · intro j hj f hf
          rcases List.mem_append.mp hj with hj | hj
          · have hP := (List.mem_filter.mp hj).2
            exact (notHit_iff _ _).mp hP f (List.mem_cons_of_mem e hf)
          · exact hSdisj j hj f (List.mem_cons_of_mem e hf)
        · intro j hj1 hj2
          rw [List.filter_append]
          subst haeb
          by_cases hjk : j ≤ k
          · have hS1 : S.filter (atLeast j) = S := by
              apply List.filter_eq_self.mpr
              intro i hi
              simp only [atLeast, decide_eq_true_eq]
              have := hSlo i hi
              omega
            have hsegf : (((List.range' a (k - a)).filter (notHit (e :: tail))).filter
                (atLeast j)).Sublist (List.range' j (k - j)) := by
              have h1 : (((List.range' a (k - a)).filter (notHit (e :: tail))).filter
                  (atLeast j)).Sublist ((List.range' a (k - a)).filter (atLeast j)) :=
                List.Sublist.filter _ (List.filter_sublist _)
              rw [range'_filter_ge (k - a) a j hj1 (by omega)] at h1
              rw [show a + (k - a) - j = k - j from by omega] at h1
              exact h1
            have hseg : (idxChars t (((List.range' a (k - a)).filter
                (notHit (e :: tail))).filter (atLeast j))).Sublist
                ((t.drop j).take (k - j)) := by
              have := idxChars_sublist t hsegf
              rwa [idxChars_range' t (k - j) j (by omega)] at this
            rw [hS1, idxChars_append]
            have hsplit2 : (t.drop a).take (k - a) =
                (t.drop a).take (j - a) ++ (t.drop j).take (k - j) := by
              rw [show k - a = (j - a) + (k - j) from by omega, List.take_add,
                List.drop_drop, show a + (j - a) = j from by omega]
            have hrearr : applyCase e.text (get_replacement e.label e.text) ++
                ((t.drop a).take (k - a) ++ X) =
                (applyCase e.text (get_replacement e.label e.text) ++
                  (t.drop a).take (j - a)) ++ ((t.drop j).take (k - j) ++ X) := by
              rw [hsplit2, List.append_assoc, List.append_assoc]
            rw [hrearr]
            have hdeep : ((t.drop j).take (k - j) ++ X).Sublist
                (((applyCase e.text (get_replacement e.label e.text) ++
                  (t.drop a).take (j - a)) ++ ((t.drop j).take (k - j) ++ X)).drop
                  (j - a)) := by
              have hcond : j - a ≤ (applyCase e.text (get_replacement e.label e.text) ++
                  (t.drop a).take (j - a)).length + 0 := by
                rw [List.length_append, List.length_take, List.length_drop]
                have : j ≤ t.length := by omega
                omega
              have := drop_append_sublist
                (applyCase e.text (get_replacement e.label e.text) ++
                  (t.drop a).take (j - a)) ((t.drop j).take (k - j) ++ X)
                (j - a) 0 hcond
              rwa [List.drop_zero] at this
            exact (List.Sublist.append hseg hfamk).trans hdeep
          · have hsegnil : ((List.range' a (k - a)).filter (notHit (e :: tail))).filter
                (atLeast j) = [] := by
              apply List.filter_eq_nil_iff.mpr
              intro x hx
              have hm := List.mem_range'_1.mp ((List.mem_filter.mp hx).1)
              simp only [atLeast, decide_eq_true_eq]
              omega
            rw [hsegnil, List.nil_append]
            have h := hfam j (by omega) hj2
            refine h.trans ?_
            have hcond : j - a ≤ (applyCase e.text (get_replacement e.label e.text) ++
                (t.drop a).take (k - a)).length + (j - k) := by
              rw [List.length_append, List.length_take, List.length_drop]
              omega
            have hd := drop_append_sublist
              (applyCase e.text (get_replacement e.label e.text) ++
                (t.drop a).take (k - a)) X (j - a) (j - k) hcond
            rwa [List.append_assoc] at hd
    · -- the span crosses k: the state drops into X
      have hkb : k < b := by omega
      have hbc : b ≤ c := by
        have := hH3 e (List.mem_cons_self e tail)
        rw [hsb] at this
        exact this hkb
      have hdropB : (t.take k ++ X).drop b = X.drop (b - k) := by
        rw [List.drop_append_eq_append_drop, List.drop_eq_nil_of_le (by omega),
          hlen_take, List.nil_append]
      rw [hdropB]
      have hsegnil : (List.range' a (k - a)).filter (notHit (e :: tail)) = [] := by
        apply List.filter_eq_nil_iff.mpr
        intro x hx
        have hm := List.mem_range'_1.mp hx
        intro hcon
        exact (notHit_iff _ _).mp hcon e (List.mem_cons_self e tail)
          ⟨by rw [hsa]; omega, by rw [hsb]; omega⟩
      rw [hsegnil, List.nil_append]
      apply ih _ _ a a (Nat.le_refl a) (by omega)
      · intro f hf; exact hoff f (List.mem_cons_of_mem e hf)
      · intro f hf; exact hvalid f (List.mem_cons_of_mem e hf)
      · exact htailstart
      · exact (List.pairwise_cons.mp hsort).2
      · exact (List.pairwise_cons.mp hdisj).2
      · intro f hf hlt
        have hfs := htailstart f hf
        have hd := htaildisj f hf
        unfold rangesDisjoint at hd
        rw [hsa, hsb] at hd
        omega
      · intro j hj
        have := hSlo j hj
        omega
      · intro j hj f hf
        exact hSdisj j hj f (List.mem_cons_of_mem e hf)
      · intro j hj1 hj2
        have hja : j = a := Nat.le_antisymm hj2 hj1
        rw [hja, Nat.sub_self, List.drop_zero]
        have hS1 : S.filter (atLeast a) = S := by
          apply List.filter_eq_self.mpr
          intro i hi
          simp only [atLeast, decide_eq_true_eq]
          have := hSlo i hi
          omega
        rw [hS1]
        have hSb : S.filter (atLeast b) = S := by
          apply List.filter_eq_self.mpr
          intro i hi
          simp only [atLeast, decide_eq_true_eq]
          have h1 := hSlo i hi
          rcases hSgeb i hi with h | h <;> omega
        have h := hfam b (by omega) hbc
        rw [hSb] at h
        exact h.trans (List.sublist_append_right _ _)

/-- C1: for spans carrying valid offsets with pairwise non-overlapping
`[start, end)` ranges, every character of the text at an index outside the
union of the ranges appears unchanged, in the same relative order, in the
output of `replace_pii_in_text`. -/
theorem claim_C1 (t : List Char) (spans : List Entity)
    (hoff : ∀ e ∈ spans, e.startIdx.isSome ∧ e.stopIdx.isSome)
    (hvalid : ∀ e ∈ spans, sa e ≤ sb e ∧ sb e ≤ t.length)
    (hdisj : spans.Pairwise rangesDisjoint) :
    (idxChars t (outIdx spans t.length)).Sublist (replace_pii_in_text t spans) := by
  unfold replace_pii_in_text
  by_cases hemp : spans.isEmpty
  · rw [if_pos hemp]
    have hnil : spans = [] := by
      cases spans with
      | nil => rfl
      | cons x xs => simp at hemp
    subst hnil
    have h1 : outIdx ([] : List Entity) t.length = List.range t.length := by
      simp [outIdx, notHit]
    have h2 : idxChars t (List.range t.length) = t := by
      rw [List.range_eq_range', idxChars_range' t t.length 0 (by omega)]
      simp
    rw [h1, h2]
  · rw [if_neg hemp]
    have hperm : (List.insertionSort entLE spans).Perm spans :=
      List.perm_insertionSort entLE spans
    have hmem : ∀ e, e ∈ List.insertionSort entLE spans ↔ e ∈ spans :=
      fun e => hperm.mem_iff
    have hout : outIdx (List.insertionSort entLE spans) t.length =
        outIdx spans t.length := by
      unfold outIdx
      apply List.filter_congr
      intro j _
      simp only [notHit]
      congr 1
      rw [Bool.eq_iff_iff, List.any_eq_true, List.any_eq_true]
      constructor
      · rintro ⟨x, hx, hpx⟩
        exact ⟨x, (hmem x).mp hx, hpx⟩
      · rintro ⟨x, hx, hpx⟩
        exact ⟨x, (hmem x).mpr hx, hpx⟩
    have h := redact_keeps_outside t (List.insertionSort entLE spans) [] []
      t.length t.length (Nat.le_refl _) (Nat.le_refl _)
      (fun e he => hoff e ((hmem e).mp he))
      (fun e he => hvalid e ((hmem e).mp he))
      (fun e he => by have := hvalid e ((hmem e).mp he); omega)
      ((List.sorted_insertionSort entLE spans).imp (fun h => h))
      ((hperm.pairwise_iff (fun hh => rangesDisjoint_symm hh)).mpr hdisj)
      (fun e he _ => (hvalid e ((hmem e).mp he)).2)
      (fun j hj => absurd hj (List.not_mem_nil j))
      (fun j hj => absurd hj (List.not_mem_nil j))
      (fun j _ _ => by simp [idxChars])
    simp only [List.append_nil, List.take_length] at h
    rw [hout] at h
    exact h

/-- Witness for C1 at a concrete text and span list. -/
theorem claim_C1_witness :
    (∀ e ∈ [entOff], e.startIdx.isSome ∧ e.stopIdx.isSome) ∧
    (∀ e ∈ [entOff], sa e ≤ sb e ∧ sb e ≤ ("ab 45 cd".data).length) ∧
    [entOff].Pairwise rangesDisjoint ∧
    (idxChars "ab 45 cd".data (outIdx [entOff] ("ab 45 cd".data).length)).Sublist
      (replace_pii_in_text "ab 45 cd".data [entOff]) :=
  ⟨by decide, by decide, by decide,
    claim_C1 "ab 45 cd".data [entOff] (by decide) (by decide) (by decide)⟩
